import Mathlib

/-!
Shallow embedding of `src/tri_engine.py` (class `TRIEngine`): the 3PL
probability model, the log-posterior objective, the MAP ability estimator,
the ENEM score transform and the coherence heuristic, together with proofs
of the specified properties.

Modelling conventions:
* Python floats are modelled as real numbers `ℝ` for the probabilistic part
  (`logistic_3pl`, `log_posterior`, `estimate_theta`, `to_enem_score`) and as
  rationals `ℚ` for the purely arithmetical coherence analysis
  (`analyze_consistency`, `_check_coherence`), which keeps the latter
  executable.
* numpy arrays are modelled as `List`s; elementwise operations become
  `zipWith`/`map`, `np.sum` becomes `List.sum`, boolean masking becomes
  `filter` over zipped lists.
* `scipy.optimize.minimize` is an external library call; it is modelled as an
  explicit function argument `minimize` producing an `OptimizeResult`
  (`x` = the located minimiser, `success` = convergence flag), exactly the two
  fields `estimate_theta` reads.
-/

namespace TRI

/-- The engine's only state: the two reporting-scale constants fixed in
`TRIEngine.__init__` (defaults 500 and 100). -/
structure TRIEngine where
  mean_scale : ℝ
  std_scale : ℝ

/-- `TRIEngine()` with the default constructor arguments. -/
def defaultEngine : TRIEngine := ⟨500, 100⟩

/-- `TRIEngine.logistic_3pl`:
`P(theta) = c + (1 - c) / (1 + exp(-a * (theta - b)))`. -/
noncomputable def logistic_3pl (theta a b c : ℝ) : ℝ :=
  c + (1 - c) / (1 + Real.exp (-(a * (theta - b))))

/-- `np.clip(x, lo, hi)`, i.e. `np.minimum(hi, np.maximum(x, lo))`. -/
noncomputable def clip (x lo hi : ℝ) : ℝ :=
  min hi (max x lo)

/-- The vectorised call `logistic_3pl(theta, params_a, params_b, params_c)`:
scalar `theta` broadcast against three parallel parameter arrays. -/
noncomputable def logistic_vec (theta : ℝ) (params_a params_b params_c : List ℝ) : List ℝ :=
  List.zipWith3 (fun ai bi ci => logistic_3pl theta ai bi ci) params_a params_b params_c

/-- `TRIEngine.log_posterior`: clipped Bernoulli log-likelihood of the
responses under the 3PL model plus a standard-normal log-prior on `theta`. -/
noncomputable def log_posterior (theta : ℝ)
    (responses params_a params_b params_c : List ℝ) : ℝ :=
  let p := logistic_vec theta params_a params_b params_c
  let p2 := p.map (fun x => clip x 1e-10 (1 - 1e-10))
  let log_l :=
    (List.zipWith (fun ri pi => ri * Real.log pi + (1 - ri) * Real.log (1 - pi))
      responses p2).sum
  let log_prior := -(0.5) * theta ^ 2
  log_l + log_prior

/-- The two fields of the `scipy.optimize.minimize` result that
`estimate_theta` reads: the located point and the convergence flag. -/
structure OptimizeResult where
  x : ℝ
  success : Bool

/-- `TRIEngine.estimate_theta`: minimise the negated log-posterior from the
initial point `0.0`; on optimizer failure fall back to the initial value.
The external optimizer is passed in as the function `minimize`. -/
noncomputable def estimate_theta (e : TRIEngine)
    (minimize : (ℝ → ℝ) → ℝ → OptimizeResult)
    (responses params_a params_b params_c : List ℝ) : ℝ :=
  let objective := fun t => -(log_posterior t responses params_a params_b params_c)
  let initial_theta : ℝ := 0.0
  let result := minimize objective initial_theta
  if result.success then result.x else initial_theta

/-- `TRIEngine.to_enem_score`: `mean_scale + std_scale * theta`. -/
def to_enem_score (e : TRIEngine) (theta : ℝ) : ℝ :=
  e.mean_scale + e.std_scale * theta

/-- The log-posterior written as the spec writes it: an indexed sum of
per-item Bernoulli log-likelihood terms with the probability clipped to
`[1e-10, 1 - 1e-10]`, minus `0.5 * theta ^ 2`. -/
noncomputable def log_posterior_spec (theta : ℝ)
    (responses params_a params_b params_c : List ℝ) : ℝ :=
  (∑ i ∈ Finset.range responses.length,
      (responses.getD i 0 *
          Real.log (clip (logistic_3pl theta (params_a.getD i 0) (params_b.getD i 0)
            (params_c.getD i 0)) 1e-10 (1 - 1e-10)) +
        (1 - responses.getD i 0) *
          Real.log (1 - clip (logistic_3pl theta (params_a.getD i 0) (params_b.getD i 0)
            (params_c.getD i 0)) 1e-10 (1 - 1e-10)))) -
    0.5 * theta ^ 2

/-- `np.argsort(xs)`: the indices of `xs` arranged so that the values they
point at are in nondecreasing order. -/
def argsort (xs : List ℚ) : List ℕ :=
  List.insertionSort (fun i j => xs.getD i 0 ≤ xs.getD j 0) (List.range xs.length)

/-- Python's `round(x, 4)`: round to four decimal places (modelled with
round-half-up; Python itself rounds halves to even, which differs only on
exact multiples of `5e-5`). -/
def round4 (x : ℚ) : ℚ :=
  (round (x * 10000) : ℚ) / 10000

/-- The dictionary returned by `TRIEngine.analyze_consistency`:
`total_acertos` (total correct), `theta_estimado` (theta rounded to 4
decimals) and `coerencia` (the label `"Alta"` = High / `"Baixa"` = Low). -/
structure ConsistencyAnalysis where
  total_acertos : ℤ
  theta_estimado : ℚ
  coerencia : String
deriving DecidableEq

/-- `TRIEngine._check_coherence`: if any item has `b < theta - 1.0` and the
mean of the responses on those items is below `0.5`, coherence is low
(`false`); otherwise it is high (`true`).  The boolean mask
`params_b < theta - 1.0` and the masked selection `responses[mask]` are
modelled by filtering the zipped `(response, difficulty)` pairs. -/
def check_coherence (theta : ℚ) (responses params_b : List ℚ) : Bool :=
  let easy_any := params_b.any (fun bi => decide (bi < theta - 1))
  if easy_any then
    let easy_responses :=
      ((responses.zip params_b).filter (fun p => decide (p.2 < theta - 1))).map Prod.fst
    let accuracy_easy := easy_responses.sum / (easy_responses.length : ℚ)
    if accuracy_easy < 1/2 then false else true
  else true

/-- `TRIEngine.analyze_consistency`: sorts items by difficulty (an
intermediate step whose results are not consumed), then reports total
correct, rounded theta and the coherence label. -/
def analyze_consistency (theta : ℚ) (responses params_b : List ℚ) : ConsistencyAnalysis :=
  let sorted_indices := argsort params_b
  let sorted_responses := sorted_indices.map (fun i => responses.getD i 0)
  let sorted_diffs := sorted_indices.map (fun i => params_b.getD i 0)
  ⟨⌊responses.sum⌋, round4 theta,
    if check_coherence theta responses params_b then "Alta" else "Baixa"⟩

/-- Variant of `analyze_consistency` with the argsort-based reordering step
removed; used to show the sort has no observable effect. -/
def analyze_consistency_nosort (theta : ℚ) (responses params_b : List ℚ) :
    ConsistencyAnalysis :=
  ⟨⌊responses.sum⌋, round4 theta,
    if check_coherence theta responses params_b then "Alta" else "Baixa"⟩

/-- The coherence rule exactly as the spec states it: the easy subset is the
set of items with `b < theta - 1.0`; if it is empty the label is High
(`true`); otherwise the label is Low (`false`) precisely when the fraction of
correct responses (responses equal to 1) within the easy subset is below
`0.5`. -/
def coherence_rule (theta : ℚ) (responses params_b : List ℚ) : Bool :=
  let easy := (responses.zip params_b).filter (fun p => decide (p.2 < theta - 1))
  if easy.isEmpty then true
  else
    let fraction_correct :=
      ((easy.filter (fun p => decide (p.1 = 1))).length : ℚ) / (easy.length : ℚ)
    !decide (fraction_correct < 1/2)

/-- A concrete always-failing optimizer, used to exercise the fallback
behaviour of `estimate_theta` on a closed input. -/
def failMin : (ℝ → ℝ) → ℝ → OptimizeResult := fun _ _ => ⟨37, false⟩

/-- C6: at `theta = b` the 3PL probability is exactly `(1 + c) / 2`. -/
theorem logistic_3pl_at_difficulty (a b c : ℝ) (ha : 0 < a) (hc0 : 0 ≤ c) (hc1 : c < 1) :
    logistic_3pl b a b c = (1 + c) / 2 := by
  unfold logistic_3pl
  simp
  ring

/-- Witness for C6 at `a = 1`, `b = 2`, `c = 0`. -/
theorem logistic_3pl_at_difficulty_witness :
    logistic_3pl 2 1 2 0 = (1 + 0) / 2 :=
  logistic_3pl_at_difficulty 1 2 0 one_pos le_rfl zero_lt_one

/-- C7: with zero discrimination the 3PL probability is the constant
`(1 + c) / 2`, independent of `theta` (and the evaluation is total). -/
theorem logistic_3pl_zero_discrimination (theta b c : ℝ) (hc0 : 0 ≤ c) (hc1 : c < 1) :
    logistic_3pl theta 0 b c = (1 + c) / 2 := by
  unfold logistic_3pl
  simp
  ring

/-- Witness for C7 at `theta = 7`, `b = -3`, `c = 1/5`. -/
theorem logistic_3pl_zero_discrimination_witness :
    logistic_3pl 7 0 (-3) (1/5) = (1 + 1/5) / 2 :=
  logistic_3pl_zero_discrimination 7 (-3) (1/5) (by norm_num) (by norm_num)

/-- C8: `to_enem_score` is the affine map `mean_scale + std_scale * theta`,
sends `0` to `mean_scale`, respects affine combinations, and the default
construction fixes the constants at 500 and 100. -/
theorem to_enem_score_affine (e : TRIEngine) (theta : ℝ) :
    to_enem_score e theta = e.mean_scale + e.std_scale * theta ∧
    to_enem_score e 0 = e.mean_scale ∧
    (∀ x y t : ℝ,
        to_enem_score e ((1 - t) * x + t * y) =
          (1 - t) * to_enem_score e x + t * to_enem_score e y) ∧
    defaultEngine.mean_scale = 500 ∧ defaultEngine.std_scale = 100 := by
  refine ⟨rfl, by simp [to_enem_score], fun x y t => ?_, rfl, rfl⟩
  unfold to_enem_score
  ring

/-- C5: for positive discrimination the 3PL curve is strictly increasing in
`theta`, tends to `c` at `-∞` and to `1` at `+∞`. -/
theorem logistic_3pl_strict_mono_limits (a b c : ℝ) (ha : 0 < a) (hc0 : 0 ≤ c) (hc1 : c < 1) :
    (∀ t1 t2 : ℝ, t1 < t2 → logistic_3pl t1 a b c < logistic_3pl t2 a b c) ∧
    Filter.Tendsto (fun theta => logistic_3pl theta a b c) Filter.atBot (nhds c) ∧
    Filter.Tendsto (fun theta => logistic_3pl theta a b c) Filter.atTop (nhds 1) := by
  have h1c : 0 < 1 - c := by linarith
  refine ⟨fun t1 t2 h12 => ?_, ?_, ?_⟩
  · have hexp : Real.exp (-(a * (t2 - b))) < Real.exp (-(a * (t1 - b))) :=
      Real.exp_lt_exp.mpr (by nlinarith)
    have hp2 : 0 < 1 + Real.exp (-(a * (t2 - b))) := by positivity
    have hlt : 1 + Real.exp (-(a * (t2 - b))) < 1 + Real.exp (-(a * (t1 - b))) := by
      linarith
    have hdiv := div_lt_div_of_pos_left h1c hp2 hlt
    unfold logistic_3pl
    linarith
  · have hlin : Filter.Tendsto (fun theta : ℝ => -(a * (theta - b))) Filter.atBot
        Filter.atTop := by
      have hsub : Filter.Tendsto (fun theta : ℝ => theta - b) Filter.atBot Filter.atBot :=
        Filter.tendsto_atBot_add_const_right _ (-b) Filter.tendsto_id
      have hmul : Filter.Tendsto (fun theta : ℝ => a * (theta - b)) Filter.atBot
          Filter.atBot := hsub.const_mul_atBot ha
      exact Filter.tendsto_neg_atBot_atTop.comp hmul
    have hE : Filter.Tendsto (fun theta : ℝ => Real.exp (-(a * (theta - b)))) Filter.atBot
        Filter.atTop := Real.tendsto_exp_atTop.comp hlin
    have hden : Filter.Tendsto (fun theta : ℝ => 1 + Real.exp (-(a * (theta - b))))
        Filter.atBot Filter.atTop := Filter.tendsto_atTop_add_const_left _ 1 hE
    have hdiv : Filter.Tendsto
        (fun theta : ℝ => (1 - c) / (1 + Real.exp (-(a * (theta - b)))))
        Filter.atBot (nhds 0) := by
      have hnum : Filter.Tendsto (fun _ : ℝ => 1 - c) Filter.atBot (nhds (1 - c)) :=
        tendsto_const_nhds
      exact hnum.div_atTop hden
    have hconst : Filter.Tendsto (fun _ : ℝ => c) Filter.atBot (nhds c) :=
      tendsto_const_nhds
    simpa [logistic_3pl] using hconst.add hdiv
  · have hlin : Filter.Tendsto (fun theta : ℝ => -(a * (theta - b))) Filter.atTop
        Filter.atBot := by
      have hsub : Filter.Tendsto (fun theta : ℝ => theta - b) Filter.atTop Filter.atTop :=
        Filter.tendsto_atTop_add_const_right _ (-b) Filter.tendsto_id
      have hmul : Filter.Tendsto (fun theta : ℝ => a * (theta - b)) Filter.atTop
          Filter.atTop := hsub.const_mul_atTop ha
      exact Filter.tendsto_neg_atTop_atBot.comp hmul
    have hE : Filter.Tendsto (fun theta : ℝ => Real.exp (-(a * (theta - b)))) Filter.atTop
        (nhds 0) := Real.tendsto_exp_atBot.comp hlin
    have hone : Filter.Tendsto (fun _ : ℝ => (1 : ℝ)) Filter.atTop (nhds 1) :=
      tendsto_const_nhds
    have hden : Filter.Tendsto (fun theta : ℝ => 1 + Real.exp (-(a * (theta - b))))
        Filter.atTop (nhds 1) := by
      simpa using hone.add hE
    have hdiv : Filter.Tendsto
        (fun theta : ℝ => (1 - c) / (1 + Real.exp (-(a * (theta - b)))))
        Filter.atTop (nhds ((1 - c) / 1)) := by
      have hnum : Filter.Tendsto (fun _ : ℝ => 1 - c) Filter.atTop (nhds (1 - c)) :=
        tendsto_const_nhds
      exact hnum.div hden one_ne_zero
    have hconst : Filter.Tendsto (fun _ : ℝ => c) Filter.atTop (nhds c) :=
      tendsto_const_nhds
    have hsum := hconst.add hdiv
    have hval : c + (1 - c) / 1 = 1 := by ring
    rw [hval] at hsum
    simpa [logistic_3pl] using hsum

/-- Witness for C5 at `a = 1`, `b = 0`, `c = 0`, with the monotonicity part
instantiated at `t1 = 0`, `t2 = 1`. -/
theorem logistic_3pl_strict_mono_limits_witness :
    logistic_3pl 0 1 0 0 < logistic_3pl 1 1 0 0 ∧
    Filter.Tendsto (fun theta => logistic_3pl theta 1 0 0) Filter.atBot (nhds 0) ∧
    Filter.Tendsto (fun theta => logistic_3pl theta 1 0 0) Filter.atTop (nhds 1) :=
  ⟨(logistic_3pl_strict_mono_limits 1 0 0 one_pos le_rfl zero_lt_one).1 0 1 zero_lt_one,
    (logistic_3pl_strict_mono_limits 1 0 0 one_pos le_rfl zero_lt_one).2.1,
    (logistic_3pl_strict_mono_limits 1 0 0 one_pos le_rfl zero_lt_one).2.2⟩

/-- Sum of a `zipWith` against a mapped `zipWith3`, written as a sum over
index positions: the list form of the elementwise likelihood computation. -/
theorem zipWith_map_zipWith3_sum (f : ℝ → ℝ → ℝ) (g : ℝ → ℝ) (h : ℝ → ℝ → ℝ → ℝ) :
    ∀ (r a b c : List ℝ), r.length = a.length → a.length = b.length →
    b.length = c.length →
    (List.zipWith f r ((List.zipWith3 h a b c).map g)).sum
      = ∑ i ∈ Finset.range r.length,
          f (r.getD i 0) (g (h (a.getD i 0) (b.getD i 0) (c.getD i 0))) := by
  intro r
  induction r with
  | nil => intro a b c _ _ _; simp
  | cons x r ih =>
    intro a b c hra hab hbc
    cases a with
    | nil => simp at hra
    | cons a0 a =>
      cases b with
      | nil => simp at hab
      | cons b0 b =>
        cases c with
        | nil => simp at hbc
        | cons c0 c =>
          simp only [List.length_cons] at hra hab hbc
          simp only [List.zipWith3, List.map_cons, List.zipWith_cons_cons,
            List.sum_cons, List.length_cons]
          rw [Finset.sum_range_succ']
          simp only [List.getD_cons_succ, List.getD_cons_zero]
          rw [ih a b c (by omega) (by omega) (by omega)]
          ring

/-- C2: `log_posterior` equals the spec's formula: the indexed sum of
`r_i * log(P_i') + (1 - r_i) * log(1 - P_i')` over all items, with `P_i'`
the clipped 3PL probability, minus `0.5 * theta ^ 2`. -/
theorem log_posterior_formula (theta : ℝ) (responses params_a params_b params_c : List ℝ)
    (hra : responses.length = params_a.length)
    (hab : params_a.length = params_b.length)
    (hbc : params_b.length = params_c.length) :
    log_posterior theta responses params_a params_b params_c =
      log_posterior_spec theta responses params_a params_b params_c := by
  unfold log_posterior log_posterior_spec logistic_vec
  dsimp only
  rw [zipWith_map_zipWith3_sum _ _ _ responses params_a params_b params_c hra hab hbc]
  ring

/-- Witness for C2 at `theta = 0`, one item with `r = 1`, `a = 1`, `b = 0`,
`c = 0`. -/
theorem log_posterior_formula_witness :
    log_posterior 0 [1] [1] [0] [0] = log_posterior_spec 0 [1] [1] [0] [0] :=
  log_posterior_formula 0 [1] [1] [0] [0] rfl rfl rfl

/-- C4: every clipped probability fed to the logarithms inside
`log_posterior` lies strictly between `0` and `1`, so both log arguments
(`P_i'` and `1 - P_i'`) are strictly positive and the `log 0` branch is
unreachable; consequently the log-posterior is a finite real. -/
theorem log_posterior_log_args_pos (theta : ℝ) (params_a params_b params_c : List ℝ)
    (x : ℝ)
    (hx : x ∈ (logistic_vec theta params_a params_b params_c).map
        (fun p => clip p 1e-10 (1 - 1e-10))) :
    0 < x ∧ x < 1 := by
  obtain ⟨p, _, rfl⟩ := List.mem_map.mp hx
  unfold clip
  constructor
  · have hlb : (1e-10 : ℝ) ≤ min (1 - 1e-10) (max p 1e-10) :=
      le_min (by norm_num) (le_max_right _ _)
    have : (0 : ℝ) < 1e-10 := by norm_num
    linarith
  · have hub : min (1 - 1e-10 : ℝ) (max p 1e-10) ≤ 1 - 1e-10 := min_le_left _ _
    have : (1 - 1e-10 : ℝ) < 1 := by norm_num
    linarith

/-- Witness for C4: the single clipped probability produced from `theta = 0`,
`a = 1`, `b = 0`, `c = 0` is strictly between 0 and 1. -/
theorem log_posterior_log_args_pos_witness :
    0 < clip (logistic_3pl 0 1 0 0) 1e-10 (1 - 1e-10) ∧
    clip (logistic_3pl 0 1 0 0) 1e-10 (1 - 1e-10) < 1 :=
  log_posterior_log_args_pos 0 [1] [0] [0] _ (by simp [logistic_vec, List.zipWith3])

/-- C3: whenever the optimizer reports failure on the objective built from
the inputs (non-convergence, for whatever internal reason), `estimate_theta`
returns the initial value `0.0`; the function is total, so no error is ever
propagated, and `0.0` is a finite real. -/
theorem estimate_theta_fallback_zero (e : TRIEngine)
    (minimize : (ℝ → ℝ) → ℝ → OptimizeResult)
    (responses params_a params_b params_c : List ℝ)
    (hfail : (minimize
        (fun t => -(log_posterior t responses params_a params_b params_c))
        0.0).success = false) :
    estimate_theta e minimize responses params_a params_b params_c = 0.0 := by
  simp [estimate_theta, hfail]

/-- Witness for C3: a concrete always-failing optimizer makes
`estimate_theta` return `0.0`. -/
theorem estimate_theta_fallback_zero_witness :
    estimate_theta defaultEngine failMin [] [] [] [] = 0.0 :=
  estimate_theta_fallback_zero defaultEngine failMin [] [] [] [] rfl

/-- C9: `estimate_theta` is deterministic: on any two engine instances with
the same configuration (in particular on repeated invocations on one
instance), identical inputs produce identical outputs. -/
theorem estimate_theta_deterministic (e1 e2 : TRIEngine)
    (minimize : (ℝ → ℝ) → ℝ → OptimizeResult)
    (responses params_a params_b params_c : List ℝ)
    (hm : e1.mean_scale = e2.mean_scale) (hs : e1.std_scale = e2.std_scale) :
    estimate_theta e1 minimize responses params_a params_b params_c =
      estimate_theta e2 minimize responses params_a params_b params_c := rfl

/-- Witness for C9 on the default configuration and a concrete optimizer. -/
theorem estimate_theta_deterministic_witness :
    estimate_theta defaultEngine failMin [] [] [] [] =
      estimate_theta defaultEngine failMin [] [] [] [] :=
  estimate_theta_deterministic defaultEngine defaultEngine failMin [] [] [] [] rfl rfl

/-- C10: the argsort-based reordering inside `analyze_consistency` has no
observable effect: the returned record coincides with the variant that omits
the sorting step, for every input. -/
theorem analyze_consistency_sort_independent (theta : ℚ) (responses params_b : List ℚ) :
    analyze_consistency theta responses params_b =
      analyze_consistency_nosort theta responses params_b := rfl

/-- For index-aligned arrays, `np.any(b < t)` agrees with non-emptiness of
the filtered zip used to model the masked selection. -/
theorem any_lt_iff_filter_isEmpty (t : ℚ) :
    ∀ (r b : List ℚ), r.length = b.length →
    b.any (fun bi => decide (bi < t)) =
      !((r.zip b).filter (fun p => decide (p.2 < t))).isEmpty := by
  intro r
  induction r with
  | nil =>
    intro b hb
    cases b with
    | nil => simp
    | cons b0 b => simp at hb
  | cons x r ih =>
    intro b hb
    cases b with
    | nil => simp at hb
    | cons b0 b =>
      simp only [List.length_cons] at hb
      by_cases hlt : b0 < t
      · simp [List.filter_cons, hlt]
      · simpa [List.filter_cons, hlt] using ih b (by omega)

/-- For a list of binary values, the sum equals the number of entries equal
to one. -/
theorem sum_eq_count_ones :
    ∀ (l : List ℚ), (∀ x ∈ l, x = 0 ∨ x = 1) →
    l.sum = ((l.filter (fun x => decide (x = 1))).length : ℚ) := by
  intro l
  induction l with
  | nil => intro _; simp
  | cons x l ih =>
    intro hbin
    have hx := hbin x (List.mem_cons_self x l)
    have hl : ∀ y ∈ l, y = 0 ∨ y = 1 := fun y hy => hbin y (List.mem_cons_of_mem x hy)
    rcases hx with h0 | h1
    · subst h0
      simp only [List.sum_cons, List.filter_cons]
      norm_num [ih hl]
    · subst h1
      simp only [List.sum_cons, List.filter_cons]
      norm_num [ih hl]
      ring

/-- `_check_coherence` computes exactly the spec's masked-accuracy rule. -/
theorem check_coherence_eq_rule (theta : ℚ) (responses params_b : List ℚ)
    (hlen : responses.length = params_b.length)
    (hbin : ∀ x ∈ responses, x = 0 ∨ x = 1) :
    check_coherence theta responses params_b = coherence_rule theta responses params_b := by
  unfold check_coherence coherence_rule
  dsimp only
  rw [any_lt_iff_filter_isEmpty (theta - 1) responses params_b hlen]
  cases hcase :
      ((responses.zip params_b).filter (fun p => decide (p.2 < theta - 1))).isEmpty with
  | true => simp [hcase]
  | false =>
    simp only [hcase, Bool.not_false, if_true]
    have hsum :
        (((responses.zip params_b).filter
            (fun p => decide (p.2 < theta - 1))).map Prod.fst).sum =
          ((((responses.zip params_b).filter (fun p => decide (p.2 < theta - 1))).filter
              (fun p => decide (p.1 = 1))).length : ℚ) := by
      rw [sum_eq_count_ones]
      · rw [List.filter_map]
        simp [Function.comp_def]
      · intro x hx
        obtain ⟨p, hp, rfl⟩ := List.mem_map.mp hx
        exact hbin p.1 (List.of_mem_zip (List.mem_of_mem_filter hp)).1
    rw [hsum, List.length_map]
    by_cases hfrac :
        (((((responses.zip params_b).filter (fun p => decide (p.2 < theta - 1))).filter
            (fun p => decide (p.1 = 1))).length : ℚ) /
          ((((responses.zip params_b).filter
              (fun p => decide (p.2 < theta - 1))).length : ℕ) : ℚ)) < 1/2
    · simp [hfrac]
    · simp [hfrac]

/-- C1: `analyze_consistency` assigns the coherence label by the spec's rule
and nothing else: High (`"Alta"`) when the easy subset (`b < theta - 1.0`)
is empty or its fraction of correct responses is at least `0.5`, and Low
(`"Baixa"`) when that fraction is below `0.5`. -/
theorem coherence_label_rule (theta : ℚ) (responses params_b : List ℚ)
    (hlen : responses.length = params_b.length)
    (hbin : ∀ x ∈ responses, x = 0 ∨ x = 1) :
    (analyze_consistency theta responses params_b).coerencia =
      (if coherence_rule theta responses params_b then "Alta" else "Baixa") := by
  have h := check_coherence_eq_rule theta responses params_b hlen hbin
  simp [analyze_consistency, h]

/-- Witness for C1: two items, both easy at `theta = 0` (`b = -2, -3`), one
answered correctly, one not — accuracy exactly `0.5`, so the label is High
(`"Alta"`). -/
theorem coherence_label_rule_witness :
    (analyze_consistency 0 [1, 0] [-2, -3]).coerencia = "Alta" :=
  (coherence_label_rule 0 [1, 0] [-2, -3] rfl (by
      intro x hx
      simp only [List.mem_cons, List.not_mem_nil, or_false] at hx
      rcases hx with h | h <;> simp [h])).trans
    (by norm_num [coherence_rule, List.filter])

end TRI
